import Mathlib

/-! Verification of the decision-circle-app comparison/visualization core.

A shallow embedding, in Lean 4, of the pure computation layer of the
decision-circle-app repository:

* `src/utils/calculations.ts` — `calculateAverage`, `doConsiderationsMatch`,
  `getHighestRatedWheels`, `calculatePercentage`;
* `src/utils/validation.ts` — `sanitizeTextInput`, `validateValue`,
  `validateFileName`;
* `src/components/CircleWheel.tsx` — `createSegmentPath` (wheel geometry);
* `src/components/ComparisonBars.tsx` — the winner/tie summary;
* `src/utils/exports.ts` — `exportToJSON`, `exportToSVG`, `triggerDownload`.

Modelling conventions:

* JavaScript numbers are idealized as exact arithmetic: rating values are `ℤ`
  (the data model constrains them to integers in `[0, 10]`), and derived
  quantities (averages, percentages, coordinates) are `ℚ`.  `NaN`, `Infinity`
  and non-number inputs are represented explicitly where the code checks for
  them (`JSNumber`, `Option String`).
* `Number.prototype.toFixed(d)` is modelled as exact round-half-up on `ℚ`
  (`toFixed1`, `toFixed0`), and `parseFloat` on its output as an exact decimal
  parser (`parseDecimal`).
* JavaScript's global regex `replace(/re/g, '')` is modelled as a single
  left-to-right scan that removes non-overlapping matches and resumes
  immediately after each removed match (`removeJS`, `removeOnAttr`,
  `removeDotDot`), exactly as the regex engine does.
* `Array.prototype.sort` with a consistent comparator is a stable sort, which
  is modelled by `List.insertionSort` (stable, and any correct sort of a total
  preorder agrees with it).
* DOM interaction in `exports.ts` (container lookup, `<svg>` querying, the
  download trigger, `alert`, `console.error`) is modelled by an explicit
  environment `Dom` and an event trace `ExportResult`; `thrown` records an
  exception escaping to the caller.
-/

/-! ## Decimal strings: rendering and parsing -/

/-- The ASCII digit character for `d` (meaningful for `d < 10`). -/
def digitChar (d : ℕ) : Char := Char.ofNat (48 + d)

/-- Fuel-indexed accumulator loop producing the base-10 digits of `n`
(most significant first) in front of `acc`.  `fuel ≥ n` is always enough. -/
def natToDigitsAux : ℕ → ℕ → List Char → List Char
  | 0, _, acc => acc
  | fuel + 1, n, acc =>
    if n = 0 then acc else natToDigitsAux fuel (n / 10) (digitChar (n % 10) :: acc)

/-- The base-10 digit characters of `n` (standard decimal rendering). -/
def natDigits (n : ℕ) : List Char :=
  if n = 0 then ['0'] else natToDigitsAux n n []

/-- Standard decimal rendering of a natural number, as JavaScript renders
nonnegative integers. -/
def natToString (n : ℕ) : String := ⟨natDigits n⟩

/-- Standard decimal rendering of an integer. -/
def intToString (i : ℤ) : String :=
  (if i < 0 then "-" else "") ++ natToString i.natAbs

/-- The numeric value of a most-significant-first list of digit characters. -/
def digitsVal (l : List Char) : ℕ :=
  l.foldl (fun a c => 10 * a + (c.toNat - 48)) 0

/-- The integer nearest to `10·|q|`, ties toward the larger integer: the
count of tenths that `toFixed(1)` renders (ECMAScript `Number.toFixed`). -/
def fixedTenths (q : ℚ) : ℕ := (⌊10 * |q| + 1 / 2⌋).toNat

/-- `Number.prototype.toFixed(1)`, idealized over `ℚ`: per the ECMAScript
specification, a possible sign, then the integer nearest to `10·|q|`
(ties toward the larger integer) rendered with the last digit after a
decimal point. -/
def toFixed1 (q : ℚ) : String :=
  (if q < 0 then "-" else "") ++
    natToString (fixedTenths q / 10) ++ "." ++ natToString (fixedTenths q % 10)

/-- `Number.prototype.toFixed(0)`, idealized over `ℚ` in the same way. -/
def toFixed0 (q : ℚ) : String :=
  (if q < 0 then "-" else "") ++ natToString ((⌊|q| + 1 / 2⌋).toNat)

/-- Value of `[sign] digits [. digits]`, the shape `parseFloat` sees on the
output of `toFixed`.  Helper on the character list after the sign. -/
def parseDecAux (l : List Char) : ℚ :=
  let ip := l.takeWhile Char.isDigit
  match l.drop ip.length with
  | [] => (digitsVal ip : ℚ)
  | c :: r =>
    if c = '.' then
      let fp := r.takeWhile Char.isDigit
      (digitsVal ip : ℚ) + (digitsVal fp : ℚ) / (10 : ℚ) ^ fp.length
    else (digitsVal ip : ℚ)

/-- `parseFloat`, restricted to the decimal strings produced by `toFixed`
(optional leading minus sign, digits, optional fractional part). -/
def parseDecimal (s : String) : ℚ :=
  match s.data with
  | [] => parseDecAux []
  | c :: l => if c = '-' then -(parseDecAux l) else parseDecAux (c :: l)

/-- `parseInt(s, 10)`: skip leading whitespace, optional sign, then the
longest digit run; no digits means `NaN` (`none`). -/
def parseIntBase10 (s : String) : Option ℤ :=
  let l := s.data.dropWhile Char.isWhitespace
  let signAndRest : Bool × List Char :=
    match l with
    | '-' :: r => (true, r)
    | '+' :: r => (false, r)
    | r => (false, r)
  let ds := signAndRest.2.takeWhile Char.isDigit
  if ds.isEmpty then none
  else some ((if signAndRest.1 then -1 else 1) * (digitsVal ds : ℤ))

/-! ## Trimming (String.prototype.trim) -/

/-- Remove trailing whitespace characters. -/
def trimRight : List Char → List Char
  | [] => []
  | c :: cs =>
    match trimRight cs with
    | [] => if c.isWhitespace then [] else [c]
    | x :: xs => c :: x :: xs

/-- `String.prototype.trim`: remove leading and trailing whitespace. -/
def trimList (l : List Char) : List Char :=
  trimRight (l.dropWhile Char.isWhitespace)

/-! ## Substring occurrence (for stating the sanitizer claims) -/

/-- `pat` occurs at the start of `l`. -/
def startsWithSeq : List Char → List Char → Bool
  | [], _ => true
  | _ :: _, [] => false
  | p :: ps, c :: cs => p == c && startsWithSeq ps cs

/-- `pat` occurs as a contiguous substring of `l`. -/
def containsSeq (pat : List Char) : List Char → Bool
  | [] => startsWithSeq pat []
  | c :: cs => startsWithSeq pat (c :: cs) || containsSeq pat cs

/-! ## Domain model (`src/types.ts`) -/

/-- A segment (consideration/factor) of a decision wheel.  `value` is the
0–10 rating; the data model keeps it an integer. -/
structure Segment where
  id : ℤ
  name : String
  value : ℤ
deriving DecidableEq

/-- A decision wheel (opportunity). -/
structure Wheel where
  id : ℤ
  name : String
  color : String
  segments : List Segment
deriving DecidableEq

/-! ## Statistics (`src/utils/calculations.ts`) -/

/-- `calculateAverage`: `'0.0'` if the wheel has no segments, otherwise the
mean of the segment values rendered with `toFixed(1)`. -/
def calculateAverage (wheel : Wheel) : String :=
  if wheel.segments.length = 0 then "0.0"
  else
    let sum : ℤ := wheel.segments.foldl (fun acc seg => acc + seg.value) 0
    let average : ℚ := (sum : ℚ) / (wheel.segments.length : ℚ)
    toFixed1 average

/-- `parseFloat(calculateAverage(wheel))`, the rounded average used by
`getHighestRatedWheels` and `ComparisonBars`. -/
def parsedAverage (wheel : Wheel) : ℚ := parseDecimal (calculateAverage wheel)

/-- `s.toLowerCase().trim()`, the name normalization used by
`doConsiderationsMatch`. -/
def normalizeName (s : String) : String :=
  ⟨trimList (s.data.map Char.toLower)⟩

/-- `doConsiderationsMatch`: `true` for the empty list; otherwise every other
wheel's sorted normalized segment names must have the same length as, and be
pointwise equal to, the first wheel's. -/
def doConsiderationsMatch (wheels : List Wheel) : Bool :=
  match wheels with
  | [] => true
  | first :: rest =>
    let firstConsiderations :=
      List.insertionSort (· ≤ ·) (first.segments.map (fun s => normalizeName s.name))
    rest.all (fun wheel =>
      let considerations :=
        List.insertionSort (· ≤ ·) (wheel.segments.map (fun s => normalizeName s.name))
      considerations.length == firstConsiderations.length &&
        considerations == firstConsiderations)

/-- `Math.max(...)` over a list, as applied by `getHighestRatedWheels` to a
nonempty list of averages. -/
def listMaxQ : List ℚ → ℚ
  | [] => 0
  | x :: xs => xs.foldl max x

/-- `getHighestRatedWheels`: all wheels whose parsed average equals the
maximum parsed average; `[]` for the empty list. -/
def getHighestRatedWheels (wheels : List Wheel) : List Wheel :=
  if wheels.length = 0 then []
  else
    let averages := wheels.map (fun wheel => (wheel, parsedAverage wheel))
    let maxAvg := listMaxQ (averages.map (fun a => a.2))
    (averages.filter (fun a => a.2 == maxAvg)).map (fun a => a.1)

/-! ## Winner summary (`src/components/ComparisonBars.tsx`) -/

/-- The summary line rendered below the comparison bars: either the tie
message, or the leader's name and formatted average together with the
formatted gap to the second place (when a second place exists). -/
inductive Summary where
  | tie : Summary
  | winner (name : String) (avgStr : String) (gap : Option String) : Summary
deriving DecidableEq

/-- `[...averages].sort((a, b) => b.avg - a.avg)`: a stable sort descending
by average (ECMAScript `Array.prototype.sort` is stable, so it agrees with
insertion sort for this total preorder). -/
def sortPairsByAvgDesc (l : List (Wheel × ℚ)) : List (Wheel × ℚ) :=
  List.insertionSort (fun a b => b.2 ≤ a.2) l

/-- The winner/tie summary of `ComparisonBars`: compute `parsedAverage` per
wheel, sort descending, then compare the top two.  `none` models the crash on
an empty list (`sorted[0]` is undefined there; the UI never renders the
component without wheels). -/
def winnerSummary (wheels : List Wheel) : Option Summary :=
  let averages := wheels.map (fun wheel => (wheel, parsedAverage wheel))
  match sortPairsByAvgDesc averages with
  | [] => none
  | highest :: rest =>
    match rest with
    | secondHighest :: _ =>
      if highest.2 = secondHighest.2 then some Summary.tie
      else
        some (Summary.winner highest.1.name (toFixed1 highest.2)
          (some (toFixed1 (highest.2 - secondHighest.2))))
    | [] => some (Summary.winner highest.1.name (toFixed1 highest.2) none)

/-! ## Wheel geometry (`src/components/CircleWheel.tsx`) -/

/-- A pie-wedge path `M cx cy L x1 y1 A r r 0 0 1 x2 y2 Z`: move to the
center, line to the start-angle point, arc at radius `radius` to the
end-angle point, close.  Angles are stored as rational multiples of `π`
(`angle = coeff * π`), so that `(xi, yi) = (cx + radius·cos(coeff·π),
cy + radius·sin(coeff·π))` determines the path exactly as the source
computes it with `Math.cos`/`Math.sin`. -/
structure PiePath where
  cx : ℚ
  cy : ℚ
  radius : ℚ
  startCoeff : ℚ
  endCoeff : ℚ
deriving DecidableEq

/-- `createSegmentPath(index, fillPercentage)` with `RADIUS = 140` and center
`(220, 220)`: `startAngle = index·(2π/N) − π/2`, `endAngle =
(index+1)·(2π/N) − π/2`, `outerRadius = 140·fillPercentage`; the path is
emitted only when `fillPercentage > 0` (otherwise the empty string, here
`none`). -/
def createSegmentPath (segmentCount : ℕ) (index : ℕ) (fillPercentage : ℚ) : Option PiePath :=
  let startCoeff : ℚ := 2 * index / segmentCount - 1 / 2
  let endCoeff : ℚ := 2 * (index + 1) / segmentCount - 1 / 2
  let outerRadius : ℚ := 140 * fillPercentage
  if 0 < fillPercentage then
    some { cx := 220, cy := 220, radius := outerRadius,
           startCoeff := startCoeff, endCoeff := endCoeff }
  else none

/-- The filled paths rendered by `CircleWheel`:
`wheel.segments.map((segment, index) => createSegmentPath(index, segment.value / 10))`. -/
def wheelFilledPaths (wheel : Wheel) : List (Option PiePath) :=
  wheel.segments.enum.map
    (fun p => createSegmentPath wheel.segments.length p.1 ((p.2.value : ℚ) / 10))

/-! ## Validation (`src/utils/validation.ts`) -/

/-- A regex word character `\w`, i.e. `[A-Za-z0-9_]`. -/
def isWordChar (c : Char) : Bool := c.isAlphanum || c == '_'

/-- Case-insensitive "starts with" for a lower-case pattern, as the `i` flag
compares ASCII letters. -/
def startsWithCI : List Char → List Char → Bool
  | [], _ => true
  | _ :: _, [] => false
  | p :: ps, c :: cs => p == c.toLower && startsWithCI ps cs

/-- The pattern of `replace(/javascript:/gi, '')`. -/
def jsProtoPat : List Char := "javascript:".data

/-- One left-to-right pass of `replace(/javascript:/gi, '')`: remove each
non-overlapping case-insensitive occurrence and resume scanning immediately
after it (the regex engine does not rescan the part already emitted).
Fuel-indexed for structural recursion; `fuel = l.length` always suffices. -/
def removeJSAux : ℕ → List Char → List Char
  | 0, l => l
  | _ + 1, [] => []
  | fuel + 1, c :: cs =>
    if startsWithCI jsProtoPat (c :: cs) then removeJSAux fuel (cs.drop 10)
    else c :: removeJSAux fuel cs

/-- `replace(/javascript:/gi, '')`. -/
def removeJS (l : List Char) : List Char := removeJSAux l.length l

/-- Try to match `/on\w+=/i` at the head of `l`; on success return the rest
of the input after the match.  `\w+` is greedy, and since `=` is not a word
character the only viable match takes the maximal word-character run. -/
def matchOnAttr (l : List Char) : Option (List Char) :=
  match l with
  | c1 :: c2 :: rest =>
    if (c1 == 'o' || c1 == 'O') && (c2 == 'n' || c2 == 'N') then
      let run := rest.takeWhile isWordChar
      let dropped := rest.drop run.length
      if run.isEmpty then none
      else if dropped.head? = some '=' then some dropped.tail
      else none
    else none
  | _ => none

/-- One left-to-right pass of `replace(/on\w+=/gi, '')` (same scanning
discipline as `removeJSAux`). -/
def removeOnAttrAux : ℕ → List Char → List Char
  | 0, l => l
  | _ + 1, [] => []
  | fuel + 1, c :: cs =>
    match matchOnAttr (c :: cs) with
    | some rest => removeOnAttrAux fuel rest
    | none => c :: removeOnAttrAux fuel cs

/-- `replace(/on\w+=/gi, '')`. -/
def removeOnAttr (l : List Char) : List Char := removeOnAttrAux l.length l

/-- The body of `sanitizeTextInput` on an actual string: remove `<` and `>`,
then one pass of `javascript:` removal, then one pass of `on\w+=` removal,
then trim. -/
def sanitizeCore (s : String) : String :=
  ⟨trimList (removeOnAttr (removeJS (s.data.filter (fun c => !(c == '<' || c == '>')))))⟩

/-- `sanitizeTextInput`: non-string input (`none`) yields the empty string. -/
def sanitizeTextInput : Option String → String
  | none => ""
  | some s => sanitizeCore s

/-- A JavaScript number as `validateValue` observes it: finite, `NaN`, or an
infinity. -/
inductive JSNumber where
  | fin (q : ℚ)
  | nan
  | posInf
  | negInf
deriving DecidableEq

/-- The `number | string` argument of `validateValue`. -/
inductive NumInput where
  | num (x : JSNumber)
  | str (s : String)
deriving DecidableEq

/-- `validateValue`: strings go through `parseInt(·, 10)`; `NaN` and
non-finite numbers yield the default `5`; finite numbers are rounded with
`Math.round` (half toward `+∞`, which is `round` on `ℚ`) and clamped to
`[MIN_VALUE, MAX_VALUE] = [0, 10]`. -/
def validateValue (value : NumInput) : ℤ :=
  let numValue : JSNumber :=
    match value with
    | NumInput.str s =>
      match parseIntBase10 s with
      | some n => JSNumber.fin (n : ℚ)
      | none => JSNumber.nan
    | NumInput.num x => x
  match numValue with
  | JSNumber.fin q => max 0 (min 10 (round q))
  | _ => 5

/-- One left-to-right pass of `replace(/\.\./g, '')`: remove non-overlapping
`..` pairs, resuming after each removed pair. -/
def removeDotDot : List Char → List Char
  | '.' :: '.' :: cs => removeDotDot cs
  | c :: cs => c :: removeDotDot cs
  | [] => []

/-- A path-separator or reserved filename character, `[/\\:*?"<>|]`. -/
def fileBadChar (c : Char) : Bool :=
  c == '/' || c == '\\' || c == ':' || c == '*' || c == '?' ||
    c == '"' || c == '<' || c == '>' || c == '|'

/-- `validateFileName`: sanitize, strip reserved characters, strip `..`
pairs, truncate to 100 characters. -/
def validateFileName (filename : String) : String :=
  ⟨(removeDotDot ((sanitizeCore filename).data.filter (fun c => !fileBadChar c))).take 100⟩

/-! ## Exports (`src/utils/exports.ts`) -/

/-- An observable side effect of the export functions. -/
inductive ExportEvent where
  | download (mime : String) (filename : String)
  | consoleError (context : String)
  | alert (message : String)
deriving DecidableEq

/-- The outcome of an export call: the trace of side effects, and the
exception (if any) that escaped to the caller. -/
structure ExportResult where
  events : List ExportEvent
  thrown : Option String
deriving DecidableEq

/-- The browser environment an export call observes: whether
`document.querySelector('.wheels-container')` finds the container, the
serialized contents of the `<svg>` elements inside it, whether the
DOM download trigger throws, and `Date.now()`. -/
structure Dom where
  hasWheelsContainer : Bool
  svgContents : List String
  downloadFails : Bool
  now : ℕ

/-- `triggerDownload`: on a DOM failure its own `catch` logs and rethrows
`'Failed to trigger download'`; otherwise the sanitized filename is used and
the blob is handed to the download link (the blob payload is not tracked —
no claim concerns it). -/
def triggerDownload (dom : Dom) (mime : String) (filename : String) : ExportResult :=
  if dom.downloadFails then
    { events := [ExportEvent.consoleError "Download error:"],
      thrown := some "Failed to trigger download" }
  else
    { events := [ExportEvent.download mime (validateFileName filename)], thrown := none }

/-- A decimal rendering for the raw interpolation of a non-integer number in
a template literal.  (JavaScript prints the shortest double representation;
no claim depends on this text, only on the structure of the document.) -/
def ratToString (q : ℚ) : String :=
  intToString q.num ++ (if q.den = 1 then "" else "/" ++ natToString q.den)

/-- The combined SVG document of `exportToSVG`: XML header, white background,
one translated `<g>` per serialized wheel, the comparison title, and one bar
row per wheel.  Numeric layout follows the source (`svgWidth = 440`,
`gap = padding = 40`, `wheelsHeight = 480`, comparison section `200` with
`40` padding); per-wheel averages are recomputed inline as
`reduce(...) / length` (for a wheel with zero segments the source produces
`NaN` texts; this model renders `0` there — no claim depends on that text). -/
def buildCombinedSVG (dom : Dom) (wheels : List Wheel) : String :=
  let svgWidth : ℕ := 440
  let gap : ℕ := 40
  let padding : ℕ := 40
  let n := dom.svgContents.length
  let wheelsWidth := svgWidth * n + gap * (n - 1) + padding * 2
  let wheelsHeight : ℕ := 480
  let comparisonPadding : ℕ := 40
  let totalHeight := wheelsHeight + 200 + comparisonPadding
  let header :=
    "<?xml version=\"1.0\" encoding=\"UTF-8\"?><svg xmlns=\"http://www.w3.org/2000/svg\" width=\""
      ++ natToString wheelsWidth ++ "\" height=\"" ++ natToString totalHeight
      ++ "\" viewBox=\"0 0 " ++ natToString wheelsWidth ++ " " ++ natToString totalHeight
      ++ "\"><rect width=\"" ++ natToString wheelsWidth ++ "\" height=\""
      ++ natToString totalHeight ++ "\" fill=\"white\"/>"
  let wheelsPart := String.join (dom.svgContents.enum.map (fun p =>
    "<g transform=\"translate(" ++ natToString (padding + p.1 * (svgWidth + gap))
      ++ ", " ++ natToString padding ++ ")\">" ++ p.2 ++ "</g>"))
  let comparisonY := wheelsHeight + comparisonPadding
  let barWidth := wheelsWidth - padding * 2
  let title := "<text x=\"" ++ natToString (wheelsWidth / 2) ++ "\" y=\""
      ++ natToString comparisonY ++ "\">Overall Comparison</text>"
  let barsPart := String.join (wheels.enum.map (fun p =>
    let wheel := p.2
    let avg : ℚ :=
      ((wheel.segments.foldl (fun acc s => acc + s.value) 0 : ℤ) : ℚ) /
        (wheel.segments.length : ℚ)
    let percentage : ℚ := avg / 10 * 100
    let fillWidth : ℚ := (barWidth : ℚ) * percentage / 100
    let barY := comparisonY + 40 + p.1 * (40 + 20)
    "<text x=\"" ++ natToString padding ++ "\" y=\"" ++ natToString (barY + 15)
      ++ "\">" ++ wheel.name ++ "</text><text>" ++ toFixed1 avg
      ++ " / 10</text><rect x=\"" ++ natToString padding ++ "\" y=\""
      ++ natToString (barY + 20) ++ "\" width=\"" ++ natToString barWidth
      ++ "\" height=\"40\" rx=\"20\" fill=\"#E5E7EB\"/><rect width=\""
      ++ ratToString fillWidth ++ "\" height=\"40\" rx=\"20\" fill=\"" ++ wheel.color
      ++ "\"/>" ++
      (if 60 < fillWidth then "<text fill=\"white\">" ++ toFixed0 percentage ++ "%</text>"
       else "")))
  header ++ wheelsPart ++ title ++ barsPart ++ "</svg>"

/-- `exportToJSON`: the whole body is wrapped in `try/catch`; an empty or
missing wheel list throws `'No wheels to export'`, which the function's own
`catch` turns into `console.error` plus `alert`, returning normally.  The
argument is `Option` because the guard `!wheels` also covers a missing
array. -/
def exportToJSON (dom : Dom) (wheels : Option (List Wheel)) : ExportResult :=
  let body : ExportResult :=
    match wheels with
    | none => { events := [], thrown := some "No wheels to export" }
    | some ws =>
      if ws.length = 0 then { events := [], thrown := some "No wheels to export" }
      else
        triggerDownload dom "application/json"
          ("decision-wheels-" ++ natToString dom.now ++ ".json")
  match body.thrown with
  | some _ =>
    { events := body.events ++
        [ExportEvent.consoleError "JSON export error:",
         ExportEvent.alert "JSON export failed. Please try again."],
      thrown := none }
  | none => body

/-- `exportToSVG`: missing container or zero `<svg>` elements throw inside
the `try`; the combined document is built and handed to `triggerDownload`;
the function's own `catch` logs and alerts with the error message, returning
normally. -/
def exportToSVG (dom : Dom) (wheels : List Wheel) : ExportResult :=
  let body : ExportResult :=
    if !dom.hasWheelsContainer then
      { events := [], thrown := some "Cannot find wheels to export" }
    else if dom.svgContents.length = 0 then
      { events := [], thrown := some "No wheels found to export" }
    else
      let _combined := buildCombinedSVG dom wheels
      triggerDownload dom "image/svg+xml;charset=utf-8"
        ("decision-wheels-" ++ natToString dom.now ++ ".svg")
  match body.thrown with
  | some msg =>
    { events := body.events ++
        [ExportEvent.consoleError "SVG export error:",
         ExportEvent.alert ("SVG export failed: " ++ msg)],
      thrown := none }
  | none => body

/-! ## Spec-side definitions (for stating the claims) -/

/-- Modelled from the spec: the exact mean `sum(v_i)/n` of a wheel's segment
values (the quantity `calculateAverage` formats). -/
def specMean (w : Wheel) : ℚ :=
  (((w.segments.map Segment.value).sum : ℤ) : ℚ) / (w.segments.length : ℚ)

/-- Modelled from the spec: the list of parsed averages sorted in descending
order (the ranking the winner summary is specified against). -/
def specSortedAvgsDesc (wheels : List Wheel) : List ℚ :=
  List.insertionSort (fun a b => b ≤ a) (wheels.map parsedAverage)

instance : IsTotal (Wheel × ℚ) (fun a b => b.2 ≤ a.2) :=
  ⟨fun a b => le_total b.2 a.2⟩

instance : IsTrans (Wheel × ℚ) (fun a b => b.2 ≤ a.2) :=
  ⟨fun _ _ _ h1 h2 => le_trans h2 h1⟩

instance : IsTotal ℚ (fun a b => b ≤ a) :=
  ⟨fun a b => le_total b a⟩

instance : IsTrans ℚ (fun a b => b ≤ a) :=
  ⟨fun _ _ _ h1 h2 => le_trans h2 h1⟩

instance : IsAntisymm ℚ (fun a b => b ≤ a) :=
  ⟨fun _ _ h1 h2 => le_antisymm h2 h1⟩

/-! # Lemmas -/

/-! ## Decimal rendering and parsing -/

theorem natToDigitsAux_zero (fuel : ℕ) (acc : List Char) :
    natToDigitsAux fuel 0 acc = acc := by
  cases fuel <;> simp [natToDigitsAux]

theorem natToDigitsAux_acc (fuel : ℕ) : ∀ (n : ℕ) (acc : List Char),
    natToDigitsAux fuel n acc = natToDigitsAux fuel n [] ++ acc := by
  induction fuel with
  | zero => intro n acc; simp [natToDigitsAux]
  | succ k ih =>
    intro n acc
    by_cases h : n = 0
    · simp [natToDigitsAux, h]
    · simp only [natToDigitsAux, if_neg h]
      rw [ih (n / 10) (digitChar (n % 10) :: acc), ih (n / 10) [digitChar (n % 10)]]
      simp

theorem digitChar_isDigit (d : ℕ) (h : d < 10) : (digitChar d).isDigit = true := by
  interval_cases d <;> decide

theorem digitChar_toNat (d : ℕ) (h : d < 10) : (digitChar d).toNat - 48 = d := by
  interval_cases d <;> decide

theorem isDigit_ne_dash (c : Char) (h : c.isDigit = true) : ¬ c = '-' := by
  intro hc
  rw [hc] at h
  exact absurd h (by decide)

theorem digitsVal_foldl (l : List Char) : ∀ a : ℕ,
    l.foldl (fun x c => 10 * x + (c.toNat - 48)) a = a * 10 ^ l.length + digitsVal l := by
  induction l with
  | nil => intro a; simp [digitsVal]
  | cons c cs ih =>
    intro a
    simp only [List.foldl_cons, digitsVal, List.length_cons]
    rw [ih (10 * a + (c.toNat - 48)), ih (10 * 0 + (c.toNat - 48))]
    ring

theorem digitsVal_append (a b : List Char) :
    digitsVal (a ++ b) = digitsVal a * 10 ^ b.length + digitsVal b := by
  unfold digitsVal
  rw [List.foldl_append]
  exact digitsVal_foldl b _

theorem digitsVal_single (c : Char) : digitsVal [c] = c.toNat - 48 := by
  simp [digitsVal]

theorem natToDigitsAux_spec : ∀ fuel n, n ≤ fuel →
    digitsVal (natToDigitsAux fuel n []) = n ∧
      (∀ c ∈ natToDigitsAux fuel n [], c.isDigit = true) := by
  intro fuel
  induction fuel with
  | zero =>
    intro n h
    interval_cases n
    simp [natToDigitsAux, digitsVal]
  | succ k ih =>
    intro n h
    by_cases h0 : n = 0
    · simp [natToDigitsAux, h0, digitsVal]
    · simp only [natToDigitsAux, if_neg h0]
      rw [natToDigitsAux_acc]
      have hdiv : n / 10 < n := Nat.div_lt_self (Nat.pos_of_ne_zero h0) (by norm_num)
      obtain ⟨hval, hdig⟩ := ih (n / 10) (by omega)
      have hmod : n % 10 < 10 := Nat.mod_lt _ (by norm_num)
      constructor
      · rw [digitsVal_append, hval, digitsVal_single, digitChar_toNat _ hmod]
        simp only [List.length_singleton, pow_one]
        omega
      · intro c hc
        rcases List.mem_append.mp hc with hc | hc
        · exact hdig c hc
        · rw [List.mem_singleton.mp hc]
          exact digitChar_isDigit _ hmod

theorem natDigits_val (n : ℕ) : digitsVal (natDigits n) = n := by
  by_cases h : n = 0
  · subst h; decide
  · rw [natDigits, if_neg h]
    exact (natToDigitsAux_spec n n le_rfl).1

theorem natDigits_isDigit (n : ℕ) : ∀ c ∈ natDigits n, c.isDigit = true := by
  by_cases h : n = 0
  · subst h; decide
  · rw [natDigits, if_neg h]
    exact (natToDigitsAux_spec n n le_rfl).2

theorem natDigits_ne_nil (n : ℕ) : natDigits n ≠ [] := by
  intro hnil
  have hval := natDigits_val n
  rw [hnil] at hval
  simp [digitsVal] at hval
  rw [natDigits, ← hval] at hnil
  simp at hnil

theorem natDigits_lt10 (m : ℕ) (h : m < 10) : natDigits m = [digitChar m] := by
  by_cases h0 : m = 0
  · subst h0; decide
  · rw [natDigits, if_neg h0]
    obtain ⟨k, rfl⟩ := Nat.exists_eq_succ_of_ne_zero h0
    simp only [natToDigitsAux, if_neg h0]
    rw [Nat.div_eq_of_lt h, natToDigitsAux_zero, Nat.mod_eq_of_lt h]

theorem takeWhile_of_all {p : Char → Bool} :
    ∀ a : List Char, (∀ c ∈ a, p c = true) → a.takeWhile p = a := by
  intro a
  induction a with
  | nil => intro _; rfl
  | cons c cs ih =>
    intro h
    rw [List.takeWhile_cons, if_pos (h c (by simp)), ih (fun x hx => h x (by simp [hx]))]

theorem takeWhile_append_stop {p : Char → Bool} :
    ∀ a : List Char, (∀ c ∈ a, p c = true) → ∀ (x : Char), p x = false →
      ∀ r : List Char, (a ++ x :: r).takeWhile p = a := by
  intro a
  induction a with
  | nil =>
    intro _ x hx r
    simp [List.takeWhile_cons, hx]
  | cons c cs ih =>
    intro h x hx r
    simp only [List.cons_append, List.takeWhile_cons, if_pos (h c (by simp))]
    rw [ih (fun y hy => h y (by simp [hy])) x hx r]

theorem tenths_combine (t : ℕ) :
    ((t / 10 : ℕ) : ℚ) + ((t % 10 : ℕ) : ℚ) / 10 = (t : ℚ) / 10 := by
  have h : 10 * (t / 10) + t % 10 = t := Nat.div_add_mod t 10
  have h' : 10 * ((t / 10 : ℕ) : ℚ) + ((t % 10 : ℕ) : ℚ) = (t : ℚ) := by
    exact_mod_cast congrArg (fun n : ℕ => (n : ℚ)) h
  field_simp
  linarith

theorem parseDecAux_shape (m d : ℕ) (hd : d < 10) :
    parseDecAux (natDigits m ++ '.' :: [digitChar d]) = (m : ℚ) + (d : ℚ) / 10 := by
  have htw : (natDigits m ++ '.' :: [digitChar d]).takeWhile Char.isDigit = natDigits m :=
    takeWhile_append_stop (natDigits m) (natDigits_isDigit m) '.' (by decide) _
  simp only [parseDecAux, htw, List.drop_left]
  have hfp : [digitChar d].takeWhile Char.isDigit = [digitChar d] :=
    takeWhile_of_all _ (by intro c hc; rw [List.mem_singleton.mp hc]; exact digitChar_isDigit d hd)
  simp only [if_pos rfl, hfp]
  rw [natDigits_val, digitsVal_single, digitChar_toNat d hd]
  simp

theorem toFixed1_data (q : ℚ) :
    (toFixed1 q).data =
      (if q < 0 then ['-'] else []) ++
        (natDigits (fixedTenths q / 10) ++ '.' :: [digitChar (fixedTenths q % 10)]) := by
  have hlast : natDigits (fixedTenths q % 10) = [digitChar (fixedTenths q % 10)] :=
    natDigits_lt10 _ (Nat.mod_lt _ (by norm_num))
  by_cases hq : q < 0 <;>
    simp [toFixed1, hq, natToString, String.data_append, hlast, List.append_assoc]

theorem parse_toFixed1 (q : ℚ) :
    parseDecimal (toFixed1 q) =
      if q < 0 then -((fixedTenths q : ℚ) / 10) else (fixedTenths q : ℚ) / 10 := by
  have hmod : fixedTenths q % 10 < 10 := Nat.mod_lt _ (by norm_num)
  have hval : parseDecAux (natDigits (fixedTenths q / 10) ++ '.' :: [digitChar (fixedTenths q % 10)]) =
      (fixedTenths q : ℚ) / 10 := by
    rw [parseDecAux_shape _ _ hmod, tenths_combine]
  by_cases hq : q < 0
  · rw [parseDecimal, toFixed1_data, if_pos hq]
    simp only [List.cons_append, List.nil_append, if_true]
    rw [hval, if_pos hq]
  · rw [parseDecimal, toFixed1_data, if_neg hq]
    simp only [List.nil_append]
    cases hnd : natDigits (fixedTenths q / 10) with
    | nil => exact absurd hnd (natDigits_ne_nil _)
    | cons c cs =>
      have hc : c.isDigit = true := by
        apply natDigits_isDigit (fixedTenths q / 10)
        rw [hnd]; simp
      simp only [List.cons_append]
      rw [if_neg (isDigit_ne_dash c hc), ← List.cons_append, ← hnd, hval, if_neg hq]

/-! ## The average (claim C1) -/

theorem foldl_sum_segments (l : List Segment) :
    l.foldl (fun acc s => acc + s.value) 0 = (l.map Segment.value).sum := by
  rw [List.sum_eq_foldl, List.foldl_map]

theorem calculateAverage_eq_toFixed (w : Wheel) (h : w.segments.length ≠ 0) :
    calculateAverage w = toFixed1 (specMean w) := by
  rw [calculateAverage, if_neg h]
  simp only [specMean, foldl_sum_segments]

theorem specMean_nonneg (w : Wheel) (hv : ∀ s ∈ w.segments, 0 ≤ s.value) :
    0 ≤ specMean w := by
  apply div_nonneg
  · have hsum : 0 ≤ (w.segments.map Segment.value).sum :=
      List.sum_nonneg (by
        intro x hx
        obtain ⟨s, hs, rfl⟩ := List.mem_map.mp hx
        exact hv s hs)
    exact_mod_cast hsum
  · exact_mod_cast Nat.zero_le _

theorem fixedTenths_of_nonneg (q : ℚ) (h : 0 ≤ q) :
    (fixedTenths q : ℤ) = round (10 * q) := by
  rw [fixedTenths, abs_of_nonneg h, round_eq]
  have hnn : (0 : ℤ) ≤ ⌊10 * q + 1 / 2⌋ := Int.floor_nonneg.mpr (by positivity)
  rw [Int.toNat_of_nonneg hnn]

/-- C1.  For a wheel whose segment values lie in `[0, 10]`,
`calculateAverage` returns `"0.0"` when there are no segments, and otherwise
the mean `sum(v_i)/n` rounded to one decimal digit (round half up, as
`toFixed(1)` does) and rendered as `⟨integer part⟩.⟨tenths digit⟩`;
`parseFloat` of that string is exactly `round(10·mean)/10`. -/
theorem claim1_calculateAverage (w : Wheel)
    (hv : ∀ s ∈ w.segments, 0 ≤ s.value ∧ s.value ≤ 10) :
    (w.segments.length = 0 → calculateAverage w = "0.0") ∧
    (w.segments.length ≠ 0 →
      calculateAverage w =
        natToString ((round (10 * specMean w)).toNat / 10) ++ "." ++
          natToString ((round (10 * specMean w)).toNat % 10) ∧
      parsedAverage w = (round (10 * specMean w) : ℚ) / 10) := by
  constructor
  · intro h
    rw [calculateAverage, if_pos h]
  · intro h
    have hnn : 0 ≤ specMean w := specMean_nonneg w (fun s hs => (hv s hs).1)
    have ht : (fixedTenths (specMean w) : ℤ) = round (10 * specMean w) :=
      fixedTenths_of_nonneg _ hnn
    have htoNat : (round (10 * specMean w)).toNat = fixedTenths (specMean w) := by
      rw [← ht, Int.toNat_natCast]
    constructor
    · rw [calculateAverage_eq_toFixed w h, toFixed1, if_neg (not_lt.mpr hnn), htoNat]
      simp
    · rw [parsedAverage, calculateAverage_eq_toFixed w h, parse_toFixed1,
        if_neg (not_lt.mpr hnn)]
      congr 1
      exact_mod_cast ht

/-! ## Consideration matching (claim C3) -/

theorem insertionSort_eq_iff_perm (a b : List String) :
    List.insertionSort (· ≤ ·) a = List.insertionSort (· ≤ ·) b ↔ a.Perm b := by
  constructor
  · intro h
    exact (List.perm_insertionSort _ a).symm.trans (h ▸ List.perm_insertionSort _ b)
  · intro h
    apply List.eq_of_perm_of_sorted (r := (· ≤ · : String → String → Prop))
    · exact (List.perm_insertionSort _ a).trans (h.trans (List.perm_insertionSort _ b).symm)
    · exact List.sorted_insertionSort _ a
    · exact List.sorted_insertionSort _ b

/-- C3.  `doConsiderationsMatch` is `true` on the empty list and on every
one-element list, and on a two-element list `[A, B]` it is `true` exactly
when the multisets of lower-cased, trimmed segment names of `A` and of `B`
coincide. -/
theorem claim3_doConsiderationsMatch :
    doConsiderationsMatch [] = true ∧
    (∀ A : Wheel, doConsiderationsMatch [A] = true) ∧
    (∀ A B : Wheel,
      (doConsiderationsMatch [A, B] = true ↔
        ((A.segments.map fun s => normalizeName s.name : List String) : Multiset String) =
          ((B.segments.map fun s => normalizeName s.name : List String) : Multiset String))) := by
  refine ⟨rfl, fun A => rfl, fun A B => ?_⟩
  rw [doConsiderationsMatch]
  simp only [List.all_cons, List.all_nil, Bool.and_true, Bool.and_eq_true, beq_iff_eq]
  rw [Multiset.coe_eq_coe]
  constructor
  · rintro ⟨-, hsort⟩
    exact ((insertionSort_eq_iff_perm _ _).mp hsort).symm
  · intro hperm
    have hs := (insertionSort_eq_iff_perm _ _).mpr hperm.symm
    exact ⟨by rw [hs], hs⟩

/-! ## Highest-rated wheels (claim C5) -/

theorem foldl_max_le (xs : List ℚ) : ∀ x : ℚ,
    x ≤ xs.foldl max x ∧ ∀ y ∈ xs, y ≤ xs.foldl max x := by
  induction xs with
  | nil => intro x; exact ⟨le_refl x, by simp⟩
  | cons a as ih =>
    intro x
    simp only [List.foldl_cons]
    obtain ⟨h1, h2⟩ := ih (max x a)
    refine ⟨le_trans (le_max_left x a) h1, ?_⟩
    intro y hy
    rcases List.mem_cons.mp hy with rfl | hy
    · exact le_trans (le_max_right x y) h1
    · exact h2 y hy

theorem foldl_max_mem (xs : List ℚ) : ∀ x : ℚ, xs.foldl max x ∈ x :: xs := by
  induction xs with
  | nil => intro x; simp
  | cons a as ih =>
    intro x
    simp only [List.foldl_cons]
    rcases List.mem_cons.mp (ih (max x a)) with h | h
    · rcases max_choice x a with hx | hx
      · rw [h, hx]; simp
      · rw [h, hx]; simp
    · simp [h]

/-- C5.  `getHighestRatedWheels` returns exactly the wheels whose parsed
average is maximal in the input list (all of them, in input order), and in
particular `[]` on the empty list. -/
theorem claim5_getHighestRatedWheels (wheels : List Wheel) :
    getHighestRatedWheels wheels =
      wheels.filter (fun w => decide (∀ u ∈ wheels, parsedAverage u ≤ parsedAverage w)) := by
  cases wheels with
  | nil => rfl
  | cons w ws =>
    rw [getHighestRatedWheels, if_neg (by simp)]
    have hmap : ((w :: ws).map (fun wheel => (wheel, parsedAverage wheel))).map
        (fun a : Wheel × ℚ => a.2) = (w :: ws).map parsedAverage := by
      simp [List.map_map, Function.comp]
    simp only [hmap]
    set maxAvg := listMaxQ ((w :: ws).map parsedAverage) with hmax
    have hub : ∀ y ∈ (w :: ws).map parsedAverage, y ≤ maxAvg := by
      rw [hmax]
      simp only [List.map_cons, listMaxQ]
      intro y hy
      rcases List.mem_cons.mp hy with rfl | hy
      · exact (foldl_max_le _ _).1
      · exact (foldl_max_le _ _).2 y hy
    have hmem : maxAvg ∈ (w :: ws).map parsedAverage := by
      rw [hmax]
      simp only [List.map_cons, listMaxQ]
      exact foldl_max_mem _ _
    rw [List.filter_map, List.map_map]
    have hid : ((fun a : Wheel × ℚ => a.1) ∘ fun wheel => (wheel, parsedAverage wheel)) =
        fun w : Wheel => w := rfl
    rw [hid, List.map_id']
    apply List.filter_congr
    intro u hu
    rw [Bool.eq_iff_iff]
    simp only [Function.comp, beq_iff_eq, decide_eq_true_eq]
    constructor
    · intro he v hv
      have hv' := hub _ (List.mem_map_of_mem _ hv)
      rw [← he] at hv'
      exact hv'
    · intro hall
      obtain ⟨v0, hv0, hveq⟩ := List.mem_map.mp hmem
      have h1 : parsedAverage u ≤ maxAvg := hub _ (List.mem_map_of_mem _ hu)
      have h2 : maxAvg ≤ parsedAverage u := hveq ▸ hall v0 hv0
      exact le_antisymm h1 h2

/-! ## Value validation (claim C6) -/

theorem validateValue_bounds : ∀ x : NumInput,
    0 ≤ validateValue x ∧ validateValue x ≤ 10 := by
  intro x
  rcases x with x | s
  · rcases x with q | _ | _ | _
    · have h : validateValue (NumInput.num (JSNumber.fin q)) = max 0 (min 10 (round q)) := rfl
      rw [h]; omega
    · exact ⟨by norm_num [validateValue], by norm_num [validateValue]⟩
    · exact ⟨by norm_num [validateValue], by norm_num [validateValue]⟩
    · exact ⟨by norm_num [validateValue], by norm_num [validateValue]⟩
  · cases hp : parseIntBase10 s with
    | none =>
      have h : validateValue (NumInput.str s) = 5 := by simp [validateValue, hp]
      rw [h]; norm_num
    | some n =>
      have h : validateValue (NumInput.str s) = max 0 (min 10 (round (n : ℚ))) := by
        simp [validateValue, hp]
      rw [h]; omega

/-- C6.  `validateValue` is idempotent (feeding its result back, as a
number, returns the same value); `validateValue(-5) = 0`,
`validateValue(15) = 10`, `validateValue("abc") = 5`,
`validateValue(NaN) = 5`; and every result is an integer (the return type
is `ℤ`) in `[0, 10]`. -/
theorem claim6_validateValue :
    (∀ x : NumInput,
      validateValue (NumInput.num (JSNumber.fin ((validateValue x : ℤ) : ℚ))) =
        validateValue x) ∧
    validateValue (NumInput.num (JSNumber.fin (-5))) = 0 ∧
    validateValue (NumInput.num (JSNumber.fin 15)) = 10 ∧
    validateValue (NumInput.str "abc") = 5 ∧
    validateValue (NumInput.num JSNumber.nan) = 5 ∧
    (∀ x : NumInput, 0 ≤ validateValue x ∧ validateValue x ≤ 10) := by
  refine ⟨?_, ?_, ?_, ?_, rfl, validateValue_bounds⟩
  · intro x
    obtain ⟨h0, h10⟩ := validateValue_bounds x
    have h : validateValue (NumInput.num (JSNumber.fin ((validateValue x : ℤ) : ℚ))) =
        max 0 (min 10 (round ((validateValue x : ℤ) : ℚ))) := rfl
    rw [h, round_intCast]
    omega
  · have h5 : round ((-5 : ℚ)) = -5 := by norm_num [round_eq]
    have h : validateValue (NumInput.num (JSNumber.fin (-5))) =
        max 0 (min 10 (round ((-5 : ℚ)))) := rfl
    rw [h, h5]
    decide
  · have h15 : round ((15 : ℚ)) = 15 := by norm_num [round_eq]
    have h : validateValue (NumInput.num (JSNumber.fin 15)) =
        max 0 (min 10 (round ((15 : ℚ)))) := rfl
    rw [h, h15]
    decide
  · have hp : parseIntBase10 "abc" = none := by decide
    simp [validateValue, hp]

/-- Witness for C1: the wheel of end-to-end scenario 1, segment values 5
and 7. -/
theorem claim1_calculateAverage_witness :
    (∀ s ∈ (Wheel.mk 1 "A" "#60A5FA" [⟨1, "cost", 5⟩, ⟨2, "time", 7⟩]).segments,
        0 ≤ s.value ∧ s.value ≤ 10) ∧
    ((Wheel.mk 1 "A" "#60A5FA" [⟨1, "cost", 5⟩, ⟨2, "time", 7⟩]).segments.length = 0 →
        calculateAverage (Wheel.mk 1 "A" "#60A5FA" [⟨1, "cost", 5⟩, ⟨2, "time", 7⟩]) = "0.0") ∧
    ((Wheel.mk 1 "A" "#60A5FA" [⟨1, "cost", 5⟩, ⟨2, "time", 7⟩]).segments.length ≠ 0 →
      calculateAverage (Wheel.mk 1 "A" "#60A5FA" [⟨1, "cost", 5⟩, ⟨2, "time", 7⟩]) =
        natToString ((round (10 * specMean (Wheel.mk 1 "A" "#60A5FA" [⟨1, "cost", 5⟩, ⟨2, "time", 7⟩]))).toNat / 10) ++ "." ++
          natToString ((round (10 * specMean (Wheel.mk 1 "A" "#60A5FA" [⟨1, "cost", 5⟩, ⟨2, "time", 7⟩]))).toNat % 10) ∧
      parsedAverage (Wheel.mk 1 "A" "#60A5FA" [⟨1, "cost", 5⟩, ⟨2, "time", 7⟩]) =
        (round (10 * specMean (Wheel.mk 1 "A" "#60A5FA" [⟨1, "cost", 5⟩, ⟨2, "time", 7⟩])) : ℚ) / 10) :=
  ⟨by decide, claim1_calculateAverage (Wheel.mk 1 "A" "#60A5FA" [⟨1, "cost", 5⟩, ⟨2, "time", 7⟩]) (by decide)⟩

/-! ## Winner summary (claim C2) -/

theorem map_snd_sortPairs (l : List (Wheel × ℚ)) :
    (sortPairsByAvgDesc l).map Prod.snd =
      List.insertionSort (fun a b : ℚ => b ≤ a) (l.map Prod.snd) := by
  apply List.eq_of_perm_of_sorted (r := fun a b : ℚ => b ≤ a)
  · exact ((List.perm_insertionSort _ l).map Prod.snd).trans
      (List.perm_insertionSort _ (l.map Prod.snd)).symm
  · exact List.Pairwise.map _ (fun a b h => h)
      (List.sorted_insertionSort (fun a b : Wheel × ℚ => b.2 ≤ a.2) l)
  · exact List.sorted_insertionSort _ _

theorem specSorted_eq_map_snd (wheels : List Wheel) :
    specSortedAvgsDesc wheels =
      (sortPairsByAvgDesc (wheels.map (fun w => (w, parsedAverage w)))).map Prod.snd := by
  rw [map_snd_sortPairs, specSortedAvgsDesc, List.map_map]
  rfl

theorem sortPairs_head_max (pairs : List (Wheel × ℚ)) (p1 : Wheel × ℚ)
    (rest' : List (Wheel × ℚ)) (hsorted : sortPairsByAvgDesc pairs = p1 :: rest') :
    ∀ p ∈ pairs, p.2 ≤ p1.2 := by
  intro p hp
  have hs := List.sorted_insertionSort (fun a b : Wheel × ℚ => b.2 ≤ a.2) pairs
  have hsorted' : List.insertionSort (fun a b : Wheel × ℚ => b.2 ≤ a.2) pairs =
      p1 :: rest' := hsorted
  rw [hsorted'] at hs
  have hperm : pairs.Perm (p1 :: rest') :=
    (hsorted' ▸ (List.perm_insertionSort (fun a b : Wheel × ℚ => b.2 ≤ a.2) pairs)).symm
  rcases List.mem_cons.mp (hperm.mem_iff.mp hp) with rfl | hmem
  · exact le_refl _
  · exact (List.sorted_cons.mp hs).1 p hmem

theorem winnerSummary_two (wheels : List Wheel) (p1 p2 : Wheel × ℚ) (r2 : List (Wheel × ℚ))
    (h : sortPairsByAvgDesc (wheels.map (fun w => (w, parsedAverage w))) = p1 :: p2 :: r2) :
    winnerSummary wheels =
      if p1.2 = p2.2 then some Summary.tie
      else some (Summary.winner p1.1.name (toFixed1 p1.2)
        (some (toFixed1 (p1.2 - p2.2)))) := by
  simp only [winnerSummary, h]

theorem winnerSummary_one (wheels : List Wheel) (p1 : Wheel × ℚ)
    (h : sortPairsByAvgDesc (wheels.map (fun w => (w, parsedAverage w))) = [p1]) :
    winnerSummary wheels = some (Summary.winner p1.1.name (toFixed1 p1.2) none) := by
  simp only [winnerSummary, h]

theorem toFixed1_38_5 : toFixed1 ((38 : ℚ) / 5) = "7.6" := by
  have hfl : (⌊10 * ((38 : ℚ) / 5) + 1 / 2⌋ : ℤ) = 76 := by norm_num
  have ht : fixedTenths ((38 : ℚ) / 5) = 76 := by
    rw [fixedTenths, abs_of_nonneg (by norm_num : (0 : ℚ) ≤ 38 / 5), hfl]
    rfl
  rw [toFixed1, ht, if_neg (by norm_num : ¬((38 : ℚ) / 5 < 0))]
  decide

theorem toFixed1_3_5 : toFixed1 ((3 : ℚ) / 5) = "0.6" := by
  have hfl : (⌊10 * ((3 : ℚ) / 5) + 1 / 2⌋ : ℤ) = 6 := by norm_num
  have ht : fixedTenths ((3 : ℚ) / 5) = 6 := by
    rw [fixedTenths, abs_of_nonneg (by norm_num : (0 : ℚ) ≤ 3 / 5), hfl]
    rfl
  rw [toFixed1, ht, if_neg (by norm_num : ¬((3 : ℚ) / 5 < 0))]
  decide

/-- C2.  For every nonempty wheel list the summary is defined; the head of
the descending-sorted average list bounds every wheel's average; when there
are at least two entries, the summary is the tie message exactly when the two
top sorted averages are equal, and otherwise names a wheel attaining the top
average together with the gap to the second sorted average rendered with
`toFixed(1)`; in particular two wheels with averages `7.6` and `7.0` yield
the leader with gap exactly `"0.6"`. -/
theorem claim2_winnerSummary (wheels : List Wheel) (hne : wheels ≠ []) :
    (∃ s, winnerSummary wheels = some s) ∧
    (∀ a bs, specSortedAvgsDesc wheels = a :: bs → ∀ x ∈ wheels, parsedAverage x ≤ a) ∧
    (∀ a b rest, specSortedAvgsDesc wheels = a :: b :: rest →
      (a = b → winnerSummary wheels = some Summary.tie) ∧
      (b < a → ∃ w, w ∈ wheels ∧ parsedAverage w = a ∧
        winnerSummary wheels =
          some (Summary.winner w.name (toFixed1 a) (some (toFixed1 (a - b)))))) ∧
    (∀ A B : Wheel, wheels = [A, B] → parsedAverage A = 38 / 5 → parsedAverage B = 7 →
      winnerSummary wheels = some (Summary.winner A.name "7.6" (some "0.6"))) := by
  obtain ⟨p1, rest', hsorted⟩ : ∃ p1 rest',
      sortPairsByAvgDesc (wheels.map (fun w => (w, parsedAverage w))) = p1 :: rest' := by
    cases hs : sortPairsByAvgDesc (wheels.map (fun w => (w, parsedAverage w))) with
    | nil =>
      exfalso
      have hlen := congrArg List.length hs
      rw [sortPairsByAvgDesc, (List.perm_insertionSort _ _).length_eq] at hlen
      simp only [List.length_map, List.length_nil, List.length_eq_zero] at hlen
      exact hne hlen
    | cons p r => exact ⟨p, r, rfl⟩
  have hspec : specSortedAvgsDesc wheels = p1.2 :: rest'.map Prod.snd := by
    rw [specSorted_eq_map_snd, hsorted, List.map_cons]
  have hmax : ∀ x ∈ wheels, parsedAverage x ≤ p1.2 := fun x hx =>
    sortPairs_head_max _ p1 rest' hsorted (x, parsedAverage x) (List.mem_map_of_mem _ hx)
  have hp1mem : p1 ∈ wheels.map (fun w => (w, parsedAverage w)) := by
    have hperm : List.insertionSort (fun a b : Wheel × ℚ => b.2 ≤ a.2)
        (wheels.map (fun w => (w, parsedAverage w))) =
          p1 :: rest' := hsorted
    exact (List.perm_insertionSort _ _).subset (hperm ▸ List.mem_cons_self _ _)
  obtain ⟨w1, hw1mem, hw1eq⟩ := List.mem_map.mp hp1mem
  refine ⟨?_, ?_, ?_, ?_⟩
  · cases rest' with
    | nil => exact ⟨_, winnerSummary_one wheels p1 hsorted⟩
    | cons p2 r2 =>
      by_cases he : p1.2 = p2.2
      · exact ⟨Summary.tie, by rw [winnerSummary_two wheels p1 p2 r2 hsorted, if_pos he]⟩
      · exact ⟨_, by rw [winnerSummary_two wheels p1 p2 r2 hsorted, if_neg he]⟩
  · intro a bs hab
    rw [hspec] at hab
    obtain ⟨ha, -⟩ := List.cons_eq_cons.mp hab
    intro x hx
    exact ha ▸ hmax x hx
  · intro a b rest hab
    rw [hspec] at hab
    obtain ⟨ha, htail⟩ := List.cons_eq_cons.mp hab
    cases rest' with
    | nil => simp at htail
    | cons p2 r2 =>
      rw [List.map_cons] at htail
      obtain ⟨hb, -⟩ := List.cons_eq_cons.mp htail
      constructor
      · intro hab2
        rw [winnerSummary_two wheels p1 p2 r2 hsorted,
          if_pos (by rw [ha, hb, ← hab2])]
      · intro hlt
        have hne2 : ¬ p1.2 = p2.2 := by
          rw [ha, hb]
          exact fun hcon => absurd hcon.symm (ne_of_lt hlt)
        refine ⟨w1, hw1mem, ?_, ?_⟩
        · rw [← ha, ← hw1eq]
        · rw [winnerSummary_two wheels p1 p2 r2 hsorted, if_neg hne2, ha, hb, ← hw1eq]
  · intro A B hAB hA hB
    subst hAB
    have hsor : sortPairsByAvgDesc ([A, B].map (fun w => (w, parsedAverage w))) =
        [(A, parsedAverage A), (B, parsedAverage B)] := by
      show List.insertionSort _ _ = _
      simp only [List.map_cons, List.map_nil, List.insertionSort, List.orderedInsert]
      rw [if_pos (show (B, parsedAverage B).2 ≤ (A, parsedAverage A).2 by
        rw [hA, hB]; norm_num)]
    rw [winnerSummary_two [A, B] _ _ _ hsor,
      if_neg (show ¬ (A, parsedAverage A).2 = (B, parsedAverage B).2 by
        rw [hA, hB]; norm_num)]
    have hgap : (A, parsedAverage A).2 - (B, parsedAverage B).2 = (3 : ℚ) / 5 := by
      rw [hA, hB]; norm_num
    rw [hgap, toFixed1_3_5]
    rw [show (A, parsedAverage A).2 = parsedAverage A from rfl, hA, toFixed1_38_5]

/-- Witness for C2: two concrete wheels with averages `7.6` and `7.0`. -/
theorem claim2_winnerSummary_witness :
    (([Wheel.mk 1 "Alpha" "#60A5FA"
        [⟨1, "a", 8⟩, ⟨2, "b", 8⟩, ⟨3, "c", 8⟩, ⟨4, "d", 8⟩, ⟨5, "e", 6⟩],
      Wheel.mk 2 "Beta" "#34D399" [⟨1, "a", 7⟩]] : List Wheel) ≠ []) ∧
    (∃ s, winnerSummary
      [Wheel.mk 1 "Alpha" "#60A5FA"
        [⟨1, "a", 8⟩, ⟨2, "b", 8⟩, ⟨3, "c", 8⟩, ⟨4, "d", 8⟩, ⟨5, "e", 6⟩],
       Wheel.mk 2 "Beta" "#34D399" [⟨1, "a", 7⟩]] = some s) :=
  ⟨by simp, (claim2_winnerSummary _ (by simp)).1⟩

/-! ## Wheel geometry (claim C4) -/

/-- C4.  For a wheel with `N ≥ 1` segments and values in `[0, 10]`:
exactly `N` filled-path entries are produced; the entry at index `i` is
empty exactly when the value is `0`; a nonempty entry is the pie wedge
centered at `(220, 220)` with radius `140·(v/10)` spanning the angles
`i·(2π/N) − π/2` to `(i+1)·(2π/N) − π/2`; and the `N` slice spans (from the
always-drawn full-radius outline paths, `fill = 1`) sum to `2π`. -/
theorem claim4_wheelGeometry (w : Wheel)
    (hN : 1 ≤ w.segments.length)
    (hv : ∀ s ∈ w.segments, 0 ≤ s.value ∧ s.value ≤ 10) :
    (wheelFilledPaths w).length = w.segments.length ∧
    (∀ (i : ℕ) (seg : Segment), w.segments[i]? = some seg →
      ∃ o, (wheelFilledPaths w)[i]? = some o ∧
        (o = none ↔ seg.value = 0) ∧
        (∀ p, o = some p →
          p.cx = 220 ∧ p.cy = 220 ∧
          p.radius = 140 * ((seg.value : ℚ) / 10) ∧
          (p.startCoeff : ℝ) * Real.pi =
            (i : ℝ) * (2 * Real.pi / (w.segments.length : ℝ)) - Real.pi / 2 ∧
          (p.endCoeff : ℝ) * Real.pi =
            ((i : ℝ) + 1) * (2 * Real.pi / (w.segments.length : ℝ)) - Real.pi / 2)) ∧
    (∃ ps : List PiePath,
      (List.range w.segments.length).map
        (fun i => createSegmentPath w.segments.length i 1) = ps.map some ∧
      ((ps.map (fun p => ((p.endCoeff - p.startCoeff : ℚ) : ℝ))).sum) * Real.pi =
        2 * Real.pi) := by
  have hNpos : 0 < w.segments.length := hN
  have hNR : (w.segments.length : ℝ) ≠ 0 := by exact_mod_cast hNpos.ne'
  refine ⟨?_, ?_, ?_⟩
  · rw [wheelFilledPaths, List.length_map, List.enum_length]
  · intro i seg hseg
    refine ⟨createSegmentPath w.segments.length i ((seg.value : ℚ) / 10), ?_, ?_, ?_⟩
    · rw [wheelFilledPaths, List.getElem?_map, List.getElem?_enum, hseg]
      rfl
    · have h0 : 0 ≤ seg.value := (hv seg (List.getElem?_mem hseg)).1
      simp only [createSegmentPath]
      by_cases hpos : 0 < ((seg.value : ℚ) / 10)
      · rw [if_pos hpos]
        constructor
        · intro hcon
          exact absurd hcon (by simp)
        · intro hval
          rw [hval] at hpos
          norm_num at hpos
      · rw [if_neg hpos]
        refine ⟨fun _ => ?_, fun _ => rfl⟩
        have hle : (seg.value : ℚ) / 10 ≤ 0 := not_lt.mp hpos
        have hle' : (seg.value : ℚ) ≤ 0 := by linarith
        have : seg.value ≤ 0 := by exact_mod_cast hle'
        omega
    · intro p hp
      simp only [createSegmentPath] at hp
      by_cases hpos : 0 < ((seg.value : ℚ) / 10)
      · rw [if_pos hpos] at hp
        obtain rfl := Option.some.inj hp
        refine ⟨rfl, rfl, rfl, ?_, ?_⟩
        · push_cast
          field_simp
          ring
        · push_cast
          field_simp
          ring
      · rw [if_neg hpos] at hp
        exact absurd hp (by simp)
  · refine ⟨(List.range w.segments.length).map (fun i : ℕ =>
      PiePath.mk 220 220 (140 * 1)
        (2 * (i : ℚ) / (w.segments.length : ℚ) - 1 / 2)
        (2 * ((i + 1 : ℕ) : ℚ) / (w.segments.length : ℚ) - 1 / 2)), ?_, ?_⟩
    · rw [List.map_map]
      apply List.map_congr_left
      intro i _
      simp only [Function.comp, createSegmentPath]
      rw [if_pos (by norm_num : (0 : ℚ) < 1)]
      norm_cast
    · rw [List.map_map]
      have hconst : ∀ i ∈ List.range w.segments.length,
          ((fun p : PiePath => ((p.endCoeff - p.startCoeff : ℚ) : ℝ)) ∘
            (fun i : ℕ => PiePath.mk 220 220 (140 * 1)
              (2 * (i : ℚ) / (w.segments.length : ℚ) - 1 / 2)
              (2 * ((i + 1 : ℕ) : ℚ) / (w.segments.length : ℚ) - 1 / 2))) i =
            2 / (w.segments.length : ℝ) := by
        intro i _
        simp only [Function.comp]
        push_cast
        field_simp
        ring
      rw [List.map_congr_left hconst, List.map_const', List.length_range,
        List.sum_replicate, nsmul_eq_mul]
      field_simp

/-- Witness for C4: a one-segment wheel with value 5. -/
theorem claim4_wheelGeometry_witness :
    (1 ≤ (Wheel.mk 1 "A" "#60A5FA" [⟨1, "a", 5⟩]).segments.length ∧
      ∀ s ∈ (Wheel.mk 1 "A" "#60A5FA" [⟨1, "a", 5⟩]).segments,
        0 ≤ s.value ∧ s.value ≤ 10) ∧
    (wheelFilledPaths (Wheel.mk 1 "A" "#60A5FA" [⟨1, "a", 5⟩])).length =
      (Wheel.mk 1 "A" "#60A5FA" [⟨1, "a", 5⟩]).segments.length :=
  ⟨⟨by decide, by decide⟩, (claim4_wheelGeometry _ (by decide) (by decide)).1⟩

/-! ## Sanitization (claim C7) -/

theorem mem_of_mem_removeJSAux : ∀ (fuel : ℕ) (l : List Char) (a : Char),
    a ∈ removeJSAux fuel l → a ∈ l := by
  intro fuel
  induction fuel with
  | zero => intro l a h; exact h
  | succ k ih =>
    intro l a h
    cases l with
    | nil => simp [removeJSAux] at h
    | cons c cs =>
      rw [removeJSAux] at h
      by_cases hs : startsWithCI jsProtoPat (c :: cs) = true
      · rw [if_pos hs] at h
        exact List.mem_cons_of_mem c ((List.drop_sublist 10 cs).subset (ih _ _ h))
      · rw [if_neg hs] at h
        rcases List.mem_cons.mp h with rfl | h
        · exact List.mem_cons_self _ _
        · exact List.mem_cons_of_mem c (ih _ _ h)

theorem matchOnAttr_sublist (l rest : List Char) (h : matchOnAttr l = some rest) :
    rest.Sublist l := by
  cases l with
  | nil => simp [matchOnAttr] at h
  | cons c1 l1 =>
    cases l1 with
    | nil => simp [matchOnAttr] at h
    | cons c2 rest0 =>
      simp only [matchOnAttr] at h
      by_cases hc : ((c1 == 'o' || c1 == 'O') && (c2 == 'n' || c2 == 'N')) = true
      · rw [if_pos hc] at h
        by_cases hrun : (rest0.takeWhile isWordChar).isEmpty = true
        · rw [if_pos hrun] at h
          simp at h
        · rw [if_neg hrun] at h
          by_cases hhd : (rest0.drop (rest0.takeWhile isWordChar).length).head? = some '='
          · rw [if_pos hhd] at h
            obtain rfl := Option.some.inj h
            exact (((List.tail_sublist _).trans (List.drop_sublist _ _)).cons c2).cons c1
          · rw [if_neg hhd] at h
            simp at h
      · rw [if_neg hc] at h
        simp at h

theorem mem_of_mem_removeOnAttrAux : ∀ (fuel : ℕ) (l : List Char) (a : Char),
    a ∈ removeOnAttrAux fuel l → a ∈ l := by
  intro fuel
  induction fuel with
  | zero => intro l a h; exact h
  | succ k ih =>
    intro l a h
    cases l with
    | nil => simp [removeOnAttrAux] at h
    | cons c cs =>
      rw [removeOnAttrAux] at h
      cases hm : matchOnAttr (c :: cs) with
      | some rest =>
        rw [hm] at h
        exact (matchOnAttr_sublist _ _ hm).subset (ih _ _ h)
      | none =>
        rw [hm] at h
        rcases List.mem_cons.mp h with rfl | h
        · exact List.mem_cons_self _ _
        · exact List.mem_cons_of_mem c (ih _ _ h)

theorem mem_of_mem_trimRight : ∀ (l : List Char) (a : Char), a ∈ trimRight l → a ∈ l := by
  intro l
  induction l with
  | nil => intro a h; exact h
  | cons c cs ih =>
    intro a h
    cases hcs : trimRight cs with
    | nil =>
      have hstep : trimRight (c :: cs) = if c.isWhitespace then [] else [c] := by
        simp only [trimRight, hcs]
      rw [hstep] at h
      by_cases hw : c.isWhitespace = true
      · rw [if_pos hw] at h
        simp at h
      · rw [if_neg hw] at h
        rcases List.mem_singleton.mp h with rfl
        exact List.mem_cons_self _ _
    | cons x xs =>
      have hstep : trimRight (c :: cs) = c :: x :: xs := by
        simp only [trimRight, hcs]
      rw [hstep] at h
      rcases List.mem_cons.mp h with rfl | h
      · exact List.mem_cons_self _ _
      · exact List.mem_cons_of_mem c (ih a (hcs ▸ h))

theorem mem_of_mem_trimList (l : List Char) (a : Char) (h : a ∈ trimList l) : a ∈ l :=
  (List.dropWhile_sublist _).subset (mem_of_mem_trimRight _ a h)

theorem trimRight_idem : ∀ l : List Char, trimRight (trimRight l) = trimRight l := by
  intro l
  induction l with
  | nil => rfl
  | cons c cs ih =>
    cases hcs : trimRight cs with
    | nil =>
      have hstep : trimRight (c :: cs) = if c.isWhitespace then [] else [c] := by
        simp only [trimRight, hcs]
      by_cases hw : c.isWhitespace = true
      · rw [hstep, if_pos hw]
        rfl
      · rw [hstep, if_neg hw]
        simp only [trimRight, if_neg hw]
    | cons x xs =>
      have hstep : trimRight (c :: cs) = c :: x :: xs := by
        simp only [trimRight, hcs]
      have hxs : trimRight (x :: xs) = x :: xs := by
        rw [← hcs]
        exact ih
      rw [hstep]
      conv_lhs => rw [trimRight, hxs]

theorem dropWhile_head_false {p : Char → Bool} :
    ∀ (l : List Char) (m : Char) (ms : List Char),
      l.dropWhile p = m :: ms → p m = false := by
  intro l
  induction l with
  | nil => intro m ms h; simp at h
  | cons c cs ih =>
    intro m ms h
    rw [List.dropWhile_cons] at h
    by_cases hc : p c = true
    · rw [if_pos hc] at h
      exact ih m ms h
    · rw [if_neg hc] at h
      obtain ⟨rfl, -⟩ := List.cons_eq_cons.mp h
      exact Bool.eq_false_iff.mpr hc

theorem dropWhile_trimRight {l : List Char}
    (hl : ∀ m ms, l = m :: ms → m.isWhitespace = false) :
    (trimRight l).dropWhile Char.isWhitespace = trimRight l := by
  cases l with
  | nil => rfl
  | cons c cs =>
    have hc : c.isWhitespace = false := hl c cs rfl
    rw [trimRight]
    cases hcs : trimRight cs with
    | nil =>
      rw [if_neg (by simp [hc])]
      rw [List.dropWhile_cons, if_neg (by simp [hc])]
    | cons x xs =>
      rw [List.dropWhile_cons, if_neg (by simp [hc])]

theorem trimList_idem (l : List Char) : trimList (trimList l) = trimList l := by
  show trimRight ((trimRight (l.dropWhile Char.isWhitespace)).dropWhile Char.isWhitespace) =
    trimRight (l.dropWhile Char.isWhitespace)
  rw [dropWhile_trimRight (fun m ms h => dropWhile_head_false l m ms h), trimRight_idem]

/-- C7, amended.  For every input the sanitized string contains no `<` and no
`>` and carries no leading or trailing whitespace (trimming it again changes
nothing), and any non-string input yields `""`.  (The `javascript:` and
`on\w+=` removals are single-pass, so such substrings can survive by
juxtaposition — see the counterexample.) -/
theorem claim7_sanitizeTextInput :
    (∀ x : Option String,
      (sanitizeTextInput x).data.contains '<' = false ∧
      (sanitizeTextInput x).data.contains '>' = false ∧
      trimList (sanitizeTextInput x).data = (sanitizeTextInput x).data) ∧
    sanitizeTextInput none = "" := by
  refine ⟨?_, rfl⟩
  intro x
  have hkey : ∀ s : String, ∀ a : Char, a ∈ (sanitizeTextInput (some s)).data →
      (!(a == '<' || a == '>')) = true := by
    intro s a ha
    have h1 := mem_of_mem_trimList _ a ha
    have h2 := mem_of_mem_removeOnAttrAux _ _ a h1
    have h3 := mem_of_mem_removeJSAux _ _ a h2
    exact (List.mem_filter.mp h3).2
  cases x with
  | none => exact ⟨rfl, rfl, rfl⟩
  | some s =>
    refine ⟨?_, ?_, trimList_idem _⟩
    · apply Bool.eq_false_iff.mpr
      intro hc
      have := hkey s '<' (List.mem_of_elem_eq_true hc)
      simp at this
    · apply Bool.eq_false_iff.mpr
      intro hc
      have := hkey s '>' (List.mem_of_elem_eq_true hc)
      simp at this

/-- Counterexample to C7 as stated: one removal pass can splice two halves
of `javascript:` together, so the output can still contain `javascript:`. -/
theorem claim7_sanitizeTextInput_cex :
    sanitizeTextInput (some "jjavascript:avascript:") = "javascript:" ∧
    containsSeq "javascript:".data
      (sanitizeTextInput (some "jjavascript:avascript:")).data = true := by
  constructor
  · decide
  · decide

/-! ## Filename validation (claim C8) -/

theorem mem_of_mem_removeDotDot {a : Char} : ∀ l : List Char, a ∈ removeDotDot l → a ∈ l := by
  intro l
  induction l using removeDotDot.induct with
  | case1 cs ih =>
    intro h
    exact List.mem_cons_of_mem _ (List.mem_cons_of_mem _ (ih h))
  | case2 c cs hexcl ih =>
    intro h
    simp only [removeDotDot, *] at h
    rcases List.mem_cons.mp h with rfl | h
    · exact List.mem_cons_self _ _
    · exact List.mem_cons_of_mem c (ih h)
  | case3 => intro h; exact h

theorem head_removeDotDot : ∀ l : List Char,
    (removeDotDot l).head? = some '.' → l.head? = some '.' := by
  intro l
  induction l using removeDotDot.induct with
  | case1 cs ih => intro _; rfl
  | case2 c cs hexcl ih =>
    intro h
    simp only [removeDotDot, *] at h
    simp only [List.head?_cons] at h ⊢
    exact h
  | case3 => intro h; exact absurd h (by decide)

theorem containsSeq_dotdot_removeDotDot : ∀ l : List Char,
    containsSeq ['.', '.'] (removeDotDot l) = false := by
  intro l
  induction l using removeDotDot.induct with
  | case1 cs ih =>
    rw [show removeDotDot ('.' :: '.' :: cs) = removeDotDot cs from rfl]
    exact ih
  | case2 c cs hexcl ih =>
    simp only [removeDotDot, *]
    simp only [containsSeq]
    refine Bool.or_eq_false_iff.mpr ⟨?_, ih⟩
    simp only [startsWithSeq]
    by_cases hc : c = '.'
    · subst hc
      cases hr : removeDotDot cs with
      | nil => simp [startsWithSeq]
      | cons r0 rs =>
        have hr0 : ¬ r0 = '.' := by
          intro hr0eq
          subst hr0eq
          have hhead : (removeDotDot cs).head? = some '.' := by
            rw [hr]; rfl
          have hcs := head_removeDotDot cs hhead
          cases cs with
          | nil => simp at hcs
          | cons d ds =>
            simp only [List.head?_cons, Option.some.injEq] at hcs
            exact hexcl ds rfl (by rw [hcs])
        have hbeq : ('.' == r0) = false :=
          beq_eq_false_iff_ne.mpr (fun h => hr0 h.symm)
        simp [startsWithSeq, hr, hbeq]
    · have hbeq : ('.' == c) = false :=
        beq_eq_false_iff_ne.mpr (fun h => hc h.symm)
      simp [hbeq]
  | case3 => decide

theorem startsWith_dot_take : ∀ (cs : List Char) (m : ℕ),
    startsWithSeq ['.'] (cs.take m) = true → startsWithSeq ['.'] cs = true := by
  intro cs m
  cases cs with
  | nil => simp [List.take_nil]
  | cons d ds =>
    cases m with
    | zero => intro h; simp [startsWithSeq] at h
    | succ k =>
      rw [List.take_succ_cons]
      simp [startsWithSeq]

theorem containsSeq_dotdot_take : ∀ (l : List Char) (n : ℕ),
    containsSeq ['.', '.'] l = false → containsSeq ['.', '.'] (l.take n) = false := by
  intro l
  induction l with
  | nil => intro n h; simpa [List.take_nil] using h
  | cons c cs ih =>
    intro n h
    cases n with
    | zero => rw [List.take_zero]; decide
    | succ m =>
      rw [List.take_succ_cons]
      simp only [containsSeq] at h ⊢
      obtain ⟨h1, h2⟩ := Bool.or_eq_false_iff.mp h
      refine Bool.or_eq_false_iff.mpr ⟨?_, ih m h2⟩
      simp only [startsWithSeq] at h1 ⊢
      cases hdc : ('.' == c) with
      | false => simp [hdc]
      | true =>
        rw [hdc] at h1
        simp only [Bool.true_and] at h1 ⊢
        cases hsw : startsWithSeq ['.'] (cs.take m) with
        | false => rfl
        | true => rw [startsWith_dot_take cs m hsw] at h1; exact h1

/-- C8.  `validateFileName` output contains none of the reserved characters
`/ \ : * ? " < > |`, contains no `..` substring, and is at most 100
characters long; in particular `validateFileName("../../../etc/passwd")`
is `"etcpasswd"`. -/
theorem claim8_validateFileName :
    (∀ s : String,
      ((validateFileName s).data.all (fun c => !fileBadChar c)) = true ∧
      containsSeq ['.', '.'] (validateFileName s).data = false ∧
      (validateFileName s).length ≤ 100) ∧
    validateFileName "../../../etc/passwd" = "etcpasswd" := by
  refine ⟨?_, by decide⟩
  intro s
  refine ⟨?_, ?_, ?_⟩
  · rw [List.all_eq_true]
    intro c hc
    have hc' : c ∈ (removeDotDot
        ((sanitizeCore s).data.filter (fun c => !fileBadChar c))).take 100 := hc
    have h1 := (List.take_sublist _ _).subset hc'
    have h2 := mem_of_mem_removeDotDot _ h1
    exact (List.mem_filter.mp h2).2
  · exact containsSeq_dotdot_take _ 100
      (containsSeq_dotdot_removeDotDot ((sanitizeCore s).data.filter (fun c => !fileBadChar c)))
  · show ((removeDotDot ((sanitizeCore s).data.filter (fun c => !fileBadChar c))).take 100).length ≤ 100
    rw [List.length_take]
    exact min_le_left _ _

/-! ## Export error handling (claims C9, C10) -/

/-- C9, amended.  Exporting an empty (or missing) wheel list raises the
`'No wheels to export'` error inside `exportToJSON`, which catches it
itself: the function logs to the console, shows the user-facing alert, and
returns normally; the event trace contains no download (no blob reaches the
download trigger). -/
theorem claim9_exportToJSON_empty (dom : Dom) :
    (exportToJSON dom none).thrown = none ∧
    (exportToJSON dom none).events =
      [ExportEvent.consoleError "JSON export error:",
       ExportEvent.alert "JSON export failed. Please try again."] ∧
    (exportToJSON dom (some [])).thrown = none ∧
    (exportToJSON dom (some [])).events =
      [ExportEvent.consoleError "JSON export error:",
       ExportEvent.alert "JSON export failed. Please try again."] :=
  ⟨rfl, rfl, rfl, rfl⟩

/-- Counterexample to C9 as stated: the precondition error is *not* raised
to the caller — `exportToJSON` returns normally (`thrown = none`) on an
empty list, because its own `catch` swallows the error. -/
theorem claim9_exportToJSON_cex :
    (exportToJSON (Dom.mk true [] false 0) (some [])).thrown = none ∧
    ((exportToJSON (Dom.mk true [] false 0) (some [])).thrown ==
      some "No wheels to export") = false := by
  exact ⟨rfl, rfl⟩

/-- C10.  Neither `exportToJSON` nor `exportToSVG` ever lets an exception
escape to the caller: every failure path (empty list, missing container, no
`<svg>` nodes, a throwing download trigger) ends in the function's own
`catch`, which logs/alerts and returns normally. -/
theorem claim10_exports_no_propagation (dom : Dom) (ws : Option (List Wheel))
    (wheels : List Wheel) :
    (exportToJSON dom ws).thrown = none ∧ (exportToSVG dom wheels).thrown = none := by
  constructor
  · rcases ws with _ | l
    · rfl
    · by_cases hl : l.length = 0
      · simp [exportToJSON, hl]
      · by_cases hd : dom.downloadFails
        · simp [exportToJSON, hl, triggerDownload, hd]
        · simp [exportToJSON, hl, triggerDownload, hd]
  · by_cases hc : dom.hasWheelsContainer
    · by_cases hsvg : dom.svgContents.length = 0
      · simp [exportToSVG, hc, hsvg]
      · by_cases hd : dom.downloadFails
        · simp [exportToSVG, hc, hsvg, triggerDownload, hd]
        · simp [exportToSVG, hc, hsvg, triggerDownload, hd]
    · simp [exportToSVG, hc]
